import Mathlib

/-!
Verification of the scraper browser extension's relay transport and step engine.

The definitions below are a shallow embedding of the chunked WebSocket relay
in src/addon/background.js (chunking, stable ids, dedup, retry on
missing_chunks) and of the recursive button-polling loop in
src/facebook/content.js.  JS strings are modelled as lists of Unicode code
points (List Nat), byte buffers as List Nat with elements below 256, and the
SHA-1 digest used by makeStableId is abstracted as an explicit
digest : String → String parameter: every theorem quantifying over digest
holds for any digest function, hence in particular for truncated SHA-1.
-/

namespace Scraper

/-- Code point of the base64 alphabet character for a 6-bit value, as used by
btoa inside chunkUtf8Base64 (src/addon/background.js). -/
def b64Char (n : Nat) : Nat :=
  if n < 26 then 65 + n
  else if n < 52 then 97 + (n - 26)
  else if n < 62 then 48 + (n - 52)
  else if n = 62 then 43
  else 47

/-- Modelled from the spec: the inverse base64 alphabet, used by the receiver
when it base64-decodes a chunk (the receiver process is outside this repo). -/
def b64CharDec (c : Nat) : Option Nat :=
  if 65 ≤ c ∧ c ≤ 90 then some (c - 65)
  else if 97 ≤ c ∧ c ≤ 122 then some (c - 97 + 26)
  else if 48 ≤ c ∧ c ≤ 57 then some (c - 48 + 52)
  else if c = 43 then some 62
  else if c = 47 then some 63
  else none

/-- Embedding of btoa on a byte list: each 3-byte group becomes 4 alphabet
characters; the final 1- or 2-byte group is padded with 61 (the code of =). -/
def b64EncodeBytes : List Nat → List Nat
  | [] => []
  | [a] => [b64Char (a / 4), b64Char (a % 4 * 16), 61, 61]
  | [a, b] => [b64Char (a / 4), b64Char (a % 4 * 16 + b / 16), b64Char (b % 16 * 4), 61]
  | a :: b :: c :: rest =>
    b64Char (a / 4) :: b64Char (a % 4 * 16 + b / 16) :: b64Char (b % 16 * 4 + c / 64) ::
      b64Char (c % 64) :: b64EncodeBytes rest

/-- Modelled from the spec: receiver-side base64 decoding (atob), the inverse
of b64EncodeBytes. -/
def b64DecodeBytes : List Nat → Option (List Nat)
  | [] => some []
  | c0 :: c1 :: c2 :: c3 :: rest =>
    match b64CharDec c0, b64CharDec c1 with
    | some s0, some s1 =>
      if c2 = 61 ∧ c3 = 61 ∧ rest = [] then some [s0 * 4 + s1 / 16]
      else
        match b64CharDec c2 with
        | some s2 =>
          if c3 = 61 ∧ rest = [] then some [s0 * 4 + s1 / 16, s1 % 16 * 16 + s2 / 4]
          else
            match b64CharDec c3 with
            | some s3 =>
              (b64DecodeBytes rest).map
                (fun t => (s0 * 4 + s1 / 16) :: (s1 % 16 * 16 + s2 / 4) :: (s2 % 4 * 64 + s3) :: t)
            | none => none
        | none => none
    | _, _ => none
  | _ => none

theorem b64CharDec_b64Char : ∀ n, n < 64 → b64CharDec (b64Char n) = some n := by decide

theorem b64Char_ne_pad : ∀ n, n < 64 → b64Char n ≠ 61 := by decide

theorem b64_roundTrip : ∀ bs : List Nat, (∀ b ∈ bs, b < 256) →
    b64DecodeBytes (b64EncodeBytes bs) = some bs := by
  intro bs
  induction bs using b64EncodeBytes.induct with
  | case1 =>
    intro _
    simp [b64EncodeBytes, b64DecodeBytes]
  | case2 a =>
    intro h
    have ha : a < 256 := h a (by simp)
    simp [b64EncodeBytes, b64DecodeBytes,
      b64CharDec_b64Char _ (show a / 4 < 64 by omega),
      b64CharDec_b64Char _ (show a % 4 * 16 < 64 by omega)]
    all_goals omega
  | case3 a b =>
    intro h
    have ha : a < 256 := h a (by simp)
    have hb : b < 256 := h b (by simp)
    simp [b64EncodeBytes, b64DecodeBytes,
      b64CharDec_b64Char _ (show a / 4 < 64 by omega),
      b64CharDec_b64Char _ (show a % 4 * 16 + b / 16 < 64 by omega),
      b64CharDec_b64Char _ (show b % 16 * 4 < 64 by omega),
      b64Char_ne_pad _ (show b % 16 * 4 < 64 by omega)]
    all_goals omega
  | case4 a b c rest ih =>
    intro h
    have ha : a < 256 := h a (by simp)
    have hb : b < 256 := h b (by simp)
    have hc : c < 256 := h c (by simp)
    have ih' := ih (fun x hx => h x (by simp [hx]))
    simp [b64EncodeBytes, b64DecodeBytes,
      b64CharDec_b64Char _ (show a / 4 < 64 by omega),
      b64CharDec_b64Char _ (show a % 4 * 16 + b / 16 < 64 by omega),
      b64CharDec_b64Char _ (show b % 16 * 4 + c / 64 < 64 by omega),
      b64CharDec_b64Char _ (show c % 64 < 64 by omega),
      b64Char_ne_pad _ (show b % 16 * 4 + c / 64 < 64 by omega),
      b64Char_ne_pad _ (show c % 64 < 64 by omega), ih']
    all_goals omega

/-- UTF-8 encoding of one code point, as produced by TextEncoder inside
chunkUtf8Base64 (src/addon/background.js). -/
def utf8EncodeChar (c : Nat) : List Nat :=
  if c < 0x80 then [c]
  else if c < 0x800 then [0xC0 + c / 64, 0x80 + c % 64]
  else if c < 0x10000 then [0xE0 + c / 4096, 0x80 + c / 64 % 64, 0x80 + c % 64]
  else [0xF0 + c / 262144, 0x80 + c / 4096 % 64, 0x80 + c / 64 % 64, 0x80 + c % 64]

/-- Embedding of TextEncoder.encode over a string modelled as its code-point
sequence. -/
def utf8Encode (s : List Nat) : List Nat :=
  (s.map utf8EncodeChar).flatten

/-- Modelled from the spec: is this byte a UTF-8 continuation byte?  Used only
by the receiver-side decoder below. -/
def isCont (b : Nat) : Bool :=
  decide (0x80 ≤ b ∧ b < 0xC0)

/-- Modelled from the spec: receiver-side decoding of one UTF-8 sequence from
the head of a byte list, returning the code point and the remaining bytes. -/
def utf8DecodeStep : List Nat → Option (Nat × List Nat)
  | [] => none
  | b :: bs =>
    if b < 0x80 then some (b, bs)
    else if b < 0xC0 then none
    else if b < 0xE0 then
      match bs with
      | b1 :: bs1 =>
        if isCont b1 then some ((b - 0xC0) * 64 + (b1 - 0x80), bs1) else none
      | [] => none
    else if b < 0xF0 then
      match bs with
      | b1 :: b2 :: bs2 =>
        if isCont b1 && isCont b2 then
          some ((b - 0xE0) * 4096 + (b1 - 0x80) * 64 + (b2 - 0x80), bs2)
        else none
      | _ => none
    else if b < 0xF8 then
      match bs with
      | b1 :: b2 :: b3 :: bs3 =>
        if isCont b1 && isCont b2 && isCont b3 then
          some ((b - 0xF0) * 262144 + (b1 - 0x80) * 4096 + (b2 - 0x80) * 64 + (b3 - 0x80), bs3)
        else none
      | _ => none
    else none

/-- Fuel-indexed decoding loop; every step consumes at least one byte, so fuel
equal to the byte count (as used by utf8DecodeCp) always suffices. -/
def utf8DecodeAux : Nat → List Nat → Option (List Nat)
  | _, [] => some []
  | 0, _ :: _ => none
  | fuel + 1, b :: bs =>
    match utf8DecodeStep (b :: bs) with
    | some (c, rest) => (utf8DecodeAux fuel rest).map (fun t => c :: t)
    | none => none

/-- Modelled from the spec: receiver-side UTF-8 decoding back to a code-point
sequence, the inverse of utf8Encode (the receiver process is outside this
repo). -/
def utf8DecodeCp (l : List Nat) : Option (List Nat) :=
  utf8DecodeAux l.length l

theorem isCont_encode (x : Nat) (hx : x < 64) : isCont (0x80 + x) = true := by
  simp only [isCont, decide_eq_true_eq]
  omega

theorem utf8DecodeStep_encodeChar (c : Nat) (hc : c < 0x110000) (rest : List Nat) :
    utf8DecodeStep (utf8EncodeChar c ++ rest) = some (c, rest) := by
  by_cases h1 : c < 0x80
  · simp [utf8EncodeChar, h1, utf8DecodeStep]
  · by_cases h2 : c < 0x800
    · simp [utf8EncodeChar, h1, h2, utf8DecodeStep, isCont_encode _ (show c % 64 < 64 by omega),
        show ¬ (0xC0 + c / 64 < 0x80) by omega, show ¬ (0xC0 + c / 64 < 0xC0) by omega,
        show 0xC0 + c / 64 < 0xE0 by omega]
      all_goals omega
    · by_cases h3 : c < 0x10000
      · simp [utf8EncodeChar, h1, h2, h3, utf8DecodeStep,
          isCont_encode _ (show c / 64 % 64 < 64 by omega),
          isCont_encode _ (show c % 64 < 64 by omega),
          show ¬ (0xE0 + c / 4096 < 0x80) by omega, show ¬ (0xE0 + c / 4096 < 0xC0) by omega,
          show ¬ (0xE0 + c / 4096 < 0xE0) by omega, show 0xE0 + c / 4096 < 0xF0 by omega]
        all_goals omega
      · simp [utf8EncodeChar, h1, h2, h3, utf8DecodeStep,
          isCont_encode _ (show c / 4096 % 64 < 64 by omega),
          isCont_encode _ (show c / 64 % 64 < 64 by omega),
          isCont_encode _ (show c % 64 < 64 by omega),
          show ¬ (0xF0 + c / 262144 < 0x80) by omega, show ¬ (0xF0 + c / 262144 < 0xC0) by omega,
          show ¬ (0xF0 + c / 262144 < 0xE0) by omega, show ¬ (0xF0 + c / 262144 < 0xF0) by omega,
          show 0xF0 + c / 262144 < 0xF8 by omega]
        all_goals omega

theorem utf8DecodeAux_encode (s : List Nat) (hs : ∀ c ∈ s, c < 0x110000) :
    ∀ fuel, (utf8Encode s).length ≤ fuel → utf8DecodeAux fuel (utf8Encode s) = some s := by
  induction s with
  | nil =>
    intro fuel _
    show utf8DecodeAux fuel [] = some []
    cases fuel <;> rfl
  | cons c s ih =>
    intro fuel hfuel
    have hc : c < 0x110000 := hs c (by simp)
    have hsplit : utf8Encode (c :: s) = utf8EncodeChar c ++ utf8Encode s := by
      simp [utf8Encode]
    obtain ⟨b, l', hb⟩ : ∃ b l', utf8EncodeChar c = b :: l' := by
      unfold utf8EncodeChar
      split_ifs <;> exact ⟨_, _, rfl⟩
    have hlen : (utf8Encode (c :: s)).length =
        (utf8EncodeChar c).length + (utf8Encode s).length := by
      rw [hsplit]
      simp
    have hone : 1 ≤ (utf8EncodeChar c).length := by
      rw [hb]
      simp
    obtain ⟨f, rfl⟩ : ∃ f, fuel = f + 1 := ⟨fuel - 1, by omega⟩
    rw [hsplit, hb, List.cons_append]
    have hstep : utf8DecodeStep (b :: (l' ++ utf8Encode s)) = some (c, utf8Encode s) := by
      rw [← List.cons_append, ← hb]
      exact utf8DecodeStep_encodeChar c hc _
    simp only [utf8DecodeAux, hstep]
    have hfs : (utf8Encode s).length ≤ f := by omega
    rw [ih (fun x hx => hs x (by simp [hx])) f hfs]
    rfl

theorem utf8_roundTrip (s : List Nat) (hs : ∀ c ∈ s, c < 0x110000) :
    utf8DecodeCp (utf8Encode s) = some s :=
  utf8DecodeAux_encode s hs _ le_rfl

theorem utf8EncodeChar_lt_256 (c : Nat) (hc : c < 0x110000) :
    ∀ b ∈ utf8EncodeChar c, b < 256 := by
  intro b hb
  unfold utf8EncodeChar at hb
  split_ifs at hb <;> simp at hb <;> omega

theorem utf8Encode_lt_256 (s : List Nat) (hs : ∀ c ∈ s, c < 0x110000) :
    ∀ b ∈ utf8Encode s, b < 256 := by
  induction s with
  | nil => simp [utf8Encode]
  | cons c s ih =>
    intro b hb
    have hsplit : utf8Encode (c :: s) = utf8EncodeChar c ++ utf8Encode s := by
      simp [utf8Encode]
    rw [hsplit] at hb
    rcases List.mem_append.mp hb with h | h
    · exact utf8EncodeChar_lt_256 c (hs c (by simp)) b h
    · exact ih (fun x hx => hs x (by simp [hx])) b h

/-- The slicing loop of chunkUtf8Base64: successive k-byte slices of the
buffer.  The k = 0 guard only serves termination; the source always calls this
with the default chunk size of 60000 bytes. -/
def chunksOf (k : Nat) (l : List Nat) : List (List Nat) :=
  if h : k = 0 ∨ l = [] then [] else l.take k :: chunksOf k (l.drop k)
termination_by l.length
decreasing_by
  have hk : k ≠ 0 := fun hk0 => h (Or.inl hk0)
  have hl : l ≠ [] := fun hl0 => h (Or.inr hl0)
  have hpos : 0 < l.length := List.length_pos.mpr hl
  simp only [List.length_drop]
  omega

theorem chunksOf_flatten (k : Nat) (hk : k ≠ 0) (l : List Nat) :
    (chunksOf k l).flatten = l := by
  induction l using chunksOf.induct k with
  | case1 l h =>
    rcases h with h | h
    · exact absurd h hk
    · rw [chunksOf]
      simp [h]
  | case2 l h ih =>
    rw [chunksOf]
    rw [dif_neg h]
    simp only [List.flatten_cons, ih]
    exact List.take_append_drop k l

theorem chunksOf_length_le (k : Nat) (l : List Nat) :
    ∀ ch ∈ chunksOf k l, ch.length ≤ k := by
  induction l using chunksOf.induct k with
  | case1 l h =>
    rw [chunksOf]
    simp [h]
  | case2 l h ih =>
    rw [chunksOf, dif_neg h]
    intro ch hch
    rcases List.mem_cons.mp hch with h1 | h1
    · subst h1
      simp [List.length_take]
    · exact ih ch h1

theorem chunksOf_mem_mem (k : Nat) (l : List Nat) :
    ∀ ch ∈ chunksOf k l, ∀ b ∈ ch, b ∈ l := by
  induction l using chunksOf.induct k with
  | case1 l h =>
    rw [chunksOf]
    simp [h]
  | case2 l h ih =>
    rw [chunksOf, dif_neg h]
    intro ch hch b hb
    rcases List.mem_cons.mp hch with h1 | h1
    · subst h1
      exact List.take_subset k l hb
    · exact List.drop_subset k l (ih ch h1 b hb)

/-- Embedding of chunkUtf8Base64 from src/addon/background.js: UTF-8 encode
the payload, slice the buffer into bytesPerChunk-byte pieces, base64-encode
each slice; returns the pair (totalBytes, chunks).  The source's default
bytesPerChunk is 60000 and no caller overrides it. -/
def chunkUtf8Base64 (s : List Nat) (bytesPerChunk : Nat) : Nat × List (List Nat) :=
  let buf := utf8Encode s
  (buf.length, (chunksOf bytesPerChunk buf).map b64EncodeBytes)

/-- Modelled from the spec: option-valued traversal used by the receiver to
base64-decode every chunk. -/
def optMapM (g : List Nat → Option (List Nat)) : List (List Nat) → Option (List (List Nat))
  | [] => some []
  | a :: l =>
    match g a, optMapM g l with
    | some b, some bs => some (b :: bs)
    | _, _ => none

/-- Modelled from the spec: receiver-side reassembly — base64-decode every
chunk, concatenate the byte slices in sequence-number order, UTF-8-decode the
result. -/
def reassemble (chunks : List (List Nat)) : Option (List Nat) :=
  match optMapM b64DecodeBytes chunks with
  | some parts => utf8DecodeCp parts.flatten
  | none => none

theorem optMapM_decode_encode (cs : List (List Nat))
    (h : ∀ ch ∈ cs, ∀ b ∈ ch, b < 256) :
    optMapM b64DecodeBytes (cs.map b64EncodeBytes) = some cs := by
  induction cs with
  | nil => rfl
  | cons a l ih =>
    have ha : b64DecodeBytes (b64EncodeBytes a) = some a := b64_roundTrip a (h a (by simp))
    have ihl := ih (fun ch hch b hb => h ch (by simp [hch]) b hb)
    simp [optMapM, ha, ihl]

/-- C1: chunkUtf8Base64 splits the UTF-8 encoding of a payload string into
base64-encoded chunks of at most 60000 bytes each, and base64-decoding every
chunk, concatenating the byte slices in sequence-number order and
UTF-8-decoding the result yields exactly the payload — for every payload
(empty, shorter than one chunk, spanning several chunks, and with multi-byte
code points straddling a chunk boundary alike). -/
theorem chunkUtf8Base64_roundTrip (s : List Nat) (hs : ∀ c ∈ s, c < 0x110000) :
    reassemble (chunkUtf8Base64 s 60000).2 = some s ∧
      ∀ ch ∈ (chunkUtf8Base64 s 60000).2,
        ∃ bs, b64DecodeBytes ch = some bs ∧ bs.length ≤ 60000 := by
  have hbytes : ∀ b ∈ utf8Encode s, b < 256 := utf8Encode_lt_256 s hs
  have hchunk : ∀ ch ∈ chunksOf 60000 (utf8Encode s), ∀ b ∈ ch, b < 256 :=
    fun ch hch b hb => hbytes b (chunksOf_mem_mem 60000 (utf8Encode s) ch hch b hb)
  constructor
  · show reassemble ((chunksOf 60000 (utf8Encode s)).map b64EncodeBytes) = some s
    simp only [reassemble, optMapM_decode_encode _ hchunk]
    rw [chunksOf_flatten 60000 (by omega) (utf8Encode s)]
    exact utf8_roundTrip s hs
  · intro ch hch
    rcases List.mem_map.mp hch with ⟨ch0, hch0, rfl⟩
    refine ⟨ch0, b64_roundTrip ch0 (hchunk ch0 hch0), ?_⟩
    exact chunksOf_length_le 60000 (utf8Encode s) ch0 hch0

/-- C1 witness: the round trip at a concrete payload containing an ASCII
character, the euro sign and a CJK character (a 3-code-point string whose
UTF-8 encoding mixes 1-, 3- and 3-byte sequences). -/
theorem chunkUtf8Base64_roundTrip_witness :
    reassemble (chunkUtf8Base64 [104, 8364, 20013] 60000).2 = some [104, 8364, 20013] :=
  (chunkUtf8Base64_roundTrip [104, 8364, 20013] (by decide)).1

/-- The metadata bag passed to sendHTMLAsStream; the fields the relay logic
reads are docType, salt and the retry marker (src/addon/background.js). -/
structure Meta where
  docType : String
  salt : String
  retry : Bool
deriving DecidableEq, Repr

/-- Wire messages handed to sendRaw by the sender (one JSON object each in the
source; modelled structurally). -/
inductive Msg where
  | begin (id : String) (total : Nat) (totalBytes : Nat) (url : String) (meta : Meta)
  | chunk (id : String) (seq : Nat) (total : Nat) (encoding : String) (url : String)
      (data : List Nat)
  | endMsg (id : String) (url : String) (meta : Meta)
deriving DecidableEq, Repr

/-- The result object returned by sendHTMLAsStream. -/
structure SendResult where
  ok : Bool
  id : Option String
  deduped : Option String
  error : Option String
deriving DecidableEq, Repr

/-- The process-wide mutable relay state of src/addon/background.js: the
inFlight set, the recentlySent ledger (id to timestamp of the saved ack) and
the lastPayloadById cache (id to url, html and meta, kept for retry). -/
structure BgState where
  inFlight : List String
  recentlySent : List (String × Nat)
  lastPayloadById : List (String × (String × List Nat × Meta))
deriving DecidableEq, Repr

/-- JS Map.get on an association list. -/
def alGet {α : Type} (k : String) (l : List (String × α)) : Option α :=
  (l.find? (fun kv => kv.1 == k)).map (fun kv => kv.2)

/-- JS Map.set on an association list (replaces any previous binding). -/
def alSet {α : Type} (k : String) (v : α) (l : List (String × α)) : List (String × α) :=
  (k, v) :: l.filter (fun kv => kv.1 != k)

/-- JS Map.delete on an association list. -/
def alErase {α : Type} (k : String) (l : List (String × α)) : List (String × α) :=
  l.filter (fun kv => kv.1 != k)

/-- JS Set.add on a list without duplicates. -/
def setAdd (x : String) (l : List String) : List String :=
  if x ∈ l then l else x :: l

/-- JS Set.delete. -/
def setErase (x : String) (l : List String) : List String :=
  l.filter (fun y => y != x)

/-- The dedup window RECENT_WINDOW_MS of src/addon/background.js (2 minutes,
protecting against fast duplicate events). -/
def RECENT_WINDOW_MS : Nat := 120000

/-- Embedding of makeStableId from src/addon/background.js: the digest input
is url, docType and salt joined with a bar separator; the html argument is
accepted but does not enter the digest input, exactly as in the source (its
comment reads: stable and steerable, only URL + docType + salt).  The SHA-1
truncation is abstracted as the digest parameter. -/
def makeStableId (digest : String → String) (url : String) (html : List Nat)
    (salt : String) (docType : String) : String :=
  digest (url ++ "|" ++ docType ++ "|" ++ salt)

/-- Embedding of waitForBeginAck from src/addon/background.js: acks is the
stream of begin_ack events (id and arrival offset in ms, in arrival order).
Returns the resolution time and whether a matching ack was seen: the promise
resolves at the first begin_ack whose id matches, or at the timeout, whichever
comes first — it always resolves. -/
def waitForBeginAck (acks : List (String × Nat)) (id : String) (timeoutMs : Nat) : Nat × Bool :=
  match (acks.filter (fun a => a.1 == id)).head? with
  | some a => if a.2 < timeoutMs then (a.2, true) else (timeoutMs, false)
  | none => (timeoutMs, false)

/-- The message trace of sendLargeAsChunksWithIdAwait for a valid html string:
one begin message (id, chunk count, byte count), every chunk message tagged
with id, seq and total in list order, then one end message. -/
def sendLargeMsgs (id : String) (url : String) (h : List Nat) (meta : Meta) : List Msg :=
  let r := chunkUtf8Base64 h 60000
  Msg.begin id r.2.length r.1 url meta ::
    (r.2.enum.map (fun p => Msg.chunk id p.1 r.2.length "base64" url p.2)) ++
      [Msg.endMsg id url meta]

/-- Embedding of sendLargeAsChunksWithIdAwait from src/addon/background.js:
returns the emitted messages and the time spent waiting for the begin_ack
(the chunks and the end message are sent after that wait, whether or not the
ack arrived).  A non-string html (none) sends nothing. -/
def sendLargeAsChunksWithIdAwait (acks : List (String × Nat)) (id : String) (url : String)
    (html : Option (List Nat)) (meta : Meta) : List Msg × Nat :=
  match html with
  | none => ([], 0)
  | some h => (sendLargeMsgs id url h meta, (waitForBeginAck acks id 5000).1)

/-- Embedding of markSent from src/addon/background.js: on a saved ack the id
leaves the inFlight set, is recorded in recentlySent with the current time,
and entries older than the window are pruned lazily on this insertion. -/
def markSent (id : String) (now : Nat) (st : BgState) : BgState :=
  { st with
    inFlight := setErase id st.inFlight
    recentlySent :=
      (alSet id now st.recentlySent).filter (fun kv => ¬ (now - kv.2 > RECENT_WINDOW_MS)) }

/-- Embedding of sendHTMLAsStream from src/addon/background.js.  html = none
models a non-string argument.  Returns the result object, the updated relay
state and the emitted messages. -/
def sendHTMLAsStream (digest : String → String) (acks : List (String × Nat)) (url : String)
    (html : Option (List Nat)) (meta : Meta) (now : Nat) (st : BgState) :
    SendResult × BgState × List Msg :=
  match html with
  | none => (⟨false, none, none, some "empty_html"⟩, st, [])
  | some h =>
    if h = [] then (⟨false, none, none, some "empty_html"⟩, st, [])
    else
      let id := makeStableId digest url h meta.salt meta.docType
      if id ∈ st.inFlight then (⟨true, some id, some "in_flight", none⟩, st, [])
      else
        let st' : BgState :=
          { st with
            inFlight := setAdd id st.inFlight
            lastPayloadById := alSet id (url, h, meta) st.lastPayloadById }
        let proceed : SendResult × BgState × List Msg :=
          (⟨true, some id, none, none⟩, st',
            (sendLargeAsChunksWithIdAwait acks id url (some h) meta).1)
        match alGet id st.recentlySent with
        | some last =>
          if last ≠ 0 ∧ now - last < RECENT_WINDOW_MS then
            (⟨true, some id, some "recent", none⟩, st, [])
          else proceed
        | none => proceed

/-- Embedding of the missing_chunks branch of ws.onmessage in
src/addon/background.js: if the reported id still has a cached payload, the id
is dropped from the inFlight set and the recentlySent ledger and the payload
is resent via sendHTMLAsStream with retry set and a fresh salt equal to the
current time rendered as a string.  Returns the updated state, the emitted
messages and the result of the inner send (none when no cached payload). -/
def handleMissingChunks (digest : String → String) (acks : List (String × Nat)) (id : String)
    (now : Nat) (st : BgState) : BgState × List Msg × Option SendResult :=
  match alGet id st.lastPayloadById with
  | none => (st, [], none)
  | some (url, h, meta) =>
    let st1 : BgState :=
      { st with
        inFlight := setErase id st.inFlight
        recentlySent := alErase id st.recentlySent }
    let r := sendHTMLAsStream digest acks url (some h)
      ⟨meta.docType, toString now, true⟩ now st1
    (r.2.1, r.2.2, some r.1)

/-- Projects the sequence number out of a chunk message. -/
def seqOf : Msg → Option Nat
  | .begin _ _ _ _ _ => none
  | .chunk _ s _ _ _ _ => some s
  | .endMsg _ _ _ => none

/-- Is this a begin message? -/
def isBeginMsg : Msg → Bool
  | .begin _ _ _ _ _ => true
  | .chunk _ _ _ _ _ _ => false
  | .endMsg _ _ _ => false

/-- Is this an end message? -/
def isEndMsg : Msg → Bool
  | .begin _ _ _ _ _ => false
  | .chunk _ _ _ _ _ _ => false
  | .endMsg _ _ _ => true

theorem append_ne_of_ne_right (a s1 s2 : String) (h : s1 ≠ s2) : a ++ s1 ≠ a ++ s2 := by
  intro he
  apply h
  have hd := congrArg String.data he
  simp only [String.data_append] at hd
  exact String.ext (List.append_cancel_left hd)

theorem sendHTMLAsStream_preserves_recentlySent (digest : String → String)
    (acks : List (String × Nat)) (url : String) (html : Option (List Nat)) (meta : Meta)
    (now : Nat) (st : BgState) :
    ((sendHTMLAsStream digest acks url html meta now st).2.1).recentlySent =
      st.recentlySent := by
  match html with
  | none => rfl
  | some h =>
    by_cases hh : h = []
    · simp [sendHTMLAsStream, hh]
    · by_cases hin : (makeStableId digest url h meta.salt meta.docType) ∈ st.inFlight
      · simp [sendHTMLAsStream, hh, hin]
      · cases halget : alGet (makeStableId digest url h meta.salt meta.docType)
            st.recentlySent with
        | none => simp [sendHTMLAsStream, hh, hin, halget]
        | some t =>
          by_cases hcond : t ≠ 0 ∧ now - t < RECENT_WINDOW_MS
          · simp [sendHTMLAsStream, hh, hin, halget, hcond]
          · simp [sendHTMLAsStream, hh, hin, halget, hcond]

/-- C10: sendHTMLAsStream called with a non-string html argument (modelled as
none) or with the empty string returns an error result carrying empty_html,
transmits no begin, chunk or end message, and leaves the inFlight set, the
recentlySent ledger and the lastPayloadById cache unchanged. -/
theorem sendHTMLAsStream_emptyHtml (digest : String → String) (acks : List (String × Nat))
    (url : String) (meta : Meta) (now : Nat) (st : BgState) :
    sendHTMLAsStream digest acks url none meta now st =
        (⟨false, none, none, some "empty_html"⟩, st, []) ∧
      sendHTMLAsStream digest acks url (some []) meta now st =
        (⟨false, none, none, some "empty_html"⟩, st, []) := by
  constructor
  · rfl
  · simp [sendHTMLAsStream]

/-- C5 counterexample: two send calls whose payload contents differ but whose
url, docType and salt agree receive the same transfer id, because makeStableId
never reads its html argument.  Shown at the identity digest; the digest
inputs are equal strings, so the collision holds for every digest function,
including the source's truncated SHA-1. -/
theorem makeStableId_ignores_content :
    makeStableId (fun s => s) "https://x" [65] "" "product" =
        makeStableId (fun s => s) "https://x" [66] "" "product" ∧
      ([65] : List Nat) ≠ [66] := by
  constructor
  · rfl
  · decide

/-- C5 amended: the transfer id is derived deterministically from the logical
key (url), the docType and the optional salt only; payload content does not
participate, so two calls with identical url, docType and salt always produce
the same id even when their contents differ, and (for an injective digest)
the id changes exactly when the call is explicitly salted, e.g. for retry. -/
theorem makeStableId_key_only (digest : String → String) (url : String)
    (h1 h2 : List Nat) (salt dt salt' : String)
    (hinj : Function.Injective digest) (hsalt : salt ≠ salt') :
    makeStableId digest url h1 salt dt = makeStableId digest url h2 salt dt ∧
      makeStableId digest url h1 salt dt ≠ makeStableId digest url h2 salt' dt := by
  constructor
  · rfl
  · intro he
    exact append_ne_of_ne_right (url ++ "|" ++ dt ++ "|") salt salt' hsalt (hinj he)

/-- C5 amended witness: content-independence and salt-sensitivity at the
identity digest and concrete arguments. -/
theorem makeStableId_key_only_witness :
    makeStableId (fun s => s) "u" [10] "" "dt" = makeStableId (fun s => s) "u" [20] "" "dt" ∧
      makeStableId (fun s => s) "u" [10] "" "dt" ≠
        makeStableId (fun s => s) "u" [20] "1" "dt" :=
  makeStableId_key_only (fun s => s) "u" [10] [20] "" "dt" "1" (fun a b hab => hab)
    (by decide)

/-- C2: two sendHTMLAsStream calls in immediate succession with identical
arguments (id fresh beforehand) transmit exactly once.  The first call returns
ok, emits the begin/chunk/end trace, and places the id in the inFlight set of
the resulting state; the second call, finding the same id in the inFlight set,
returns ok with the deduped status in_flight and emits no message. -/
theorem sendHTMLAsStream_dedup_second_call (digest : String → String)
    (acks : List (String × Nat)) (url : String) (h : List Nat) (meta : Meta)
    (now1 now2 : Nat) (st0 : BgState) (hh : h ≠ [])
    (hfree : makeStableId digest url h meta.salt meta.docType ∉ st0.inFlight)
    (hrec : alGet (makeStableId digest url h meta.salt meta.docType) st0.recentlySent = none) :
    (sendHTMLAsStream digest acks url (some h) meta now1 st0).1 =
        ⟨true, some (makeStableId digest url h meta.salt meta.docType), none, none⟩ ∧
      (sendHTMLAsStream digest acks url (some h) meta now1 st0).2.2 =
        sendLargeMsgs (makeStableId digest url h meta.salt meta.docType) url h meta ∧
      makeStableId digest url h meta.salt meta.docType ∈
        (sendHTMLAsStream digest acks url (some h) meta now1 st0).2.1.inFlight ∧
      (sendHTMLAsStream digest acks url (some h) meta now2
          (sendHTMLAsStream digest acks url (some h) meta now1 st0).2.1).1 =
        ⟨true, some (makeStableId digest url h meta.salt meta.docType), some "in_flight",
          none⟩ ∧
      (sendHTMLAsStream digest acks url (some h) meta now2
          (sendHTMLAsStream digest acks url (some h) meta now1 st0).2.1).2.2 = [] := by
  have hfirst : sendHTMLAsStream digest acks url (some h) meta now1 st0 =
      (⟨true, some (makeStableId digest url h meta.salt meta.docType), none, none⟩,
        { st0 with
          inFlight := setAdd (makeStableId digest url h meta.salt meta.docType) st0.inFlight
          lastPayloadById := alSet (makeStableId digest url h meta.salt meta.docType)
            (url, h, meta) st0.lastPayloadById },
        sendLargeMsgs (makeStableId digest url h meta.salt meta.docType) url h meta) := by
    simp [sendHTMLAsStream, hh, hfree, hrec, sendLargeAsChunksWithIdAwait]
  have hmem : makeStableId digest url h meta.salt meta.docType ∈
      setAdd (makeStableId digest url h meta.salt meta.docType) st0.inFlight := by
    simp [setAdd]
    split
    · assumption
    · simp
  have hsecond : ∀ st1 : BgState,
      makeStableId digest url h meta.salt meta.docType ∈ st1.inFlight →
      sendHTMLAsStream digest acks url (some h) meta now2 st1 =
        (⟨true, some (makeStableId digest url h meta.salt meta.docType), some "in_flight",
          none⟩, st1, []) := by
    intro st1 hin
    simp [sendHTMLAsStream, hh, hin]
  rw [hfirst]
  refine ⟨rfl, rfl, hmem, ?_, ?_⟩ <;> rw [hsecond _ hmem]

/-- C2 witness: both calls evaluated at a concrete payload from the empty
relay state; the second call emits nothing. -/
theorem sendHTMLAsStream_dedup_second_call_witness :
    (sendHTMLAsStream (fun s => s) [] "u" (some [104]) ⟨"", "", false⟩ 0
        (sendHTMLAsStream (fun s => s) [] "u" (some [104]) ⟨"", "", false⟩ 0
          ⟨[], [], []⟩).2.1).2.2 = [] :=
  (sendHTMLAsStream_dedup_second_call (fun s => s) [] "u" [104] ⟨"", "", false⟩ 0 0
    ⟨[], [], []⟩ (by decide) (List.not_mem_nil _) rfl).2.2.2.2

/-- C6: after markSent records a saved ack for an id at time tSave (positive,
as real clock readings are), a subsequent identical send at time tSend is
suppressed with the deduped status recent and no transmission exactly while
tSend - tSave is below the 120000 ms window, and is transmitted again once the
window has elapsed; the ledger holds the id with the save timestamp, entries
older than the window were pruned by the insertion, and a send call itself
never adds ledger entries (they are added only on a confirmed save). -/
theorem markSent_dedup_window (digest : String → String) (acks : List (String × Nat))
    (url : String) (h : List Nat) (meta : Meta) (st : BgState) (tSave tSend : Nat)
    (hh : h ≠ []) (hpos : 0 < tSave) :
    (makeStableId digest url h meta.salt meta.docType ∉
        (markSent (makeStableId digest url h meta.salt meta.docType) tSave st).inFlight) ∧
      alGet (makeStableId digest url h meta.salt meta.docType)
          (markSent (makeStableId digest url h meta.salt meta.docType) tSave st).recentlySent =
        some tSave ∧
      (∀ kv ∈ (markSent (makeStableId digest url h meta.salt meta.docType) tSave
          st).recentlySent, tSave - kv.2 ≤ RECENT_WINDOW_MS) ∧
      (tSend - tSave < RECENT_WINDOW_MS →
        sendHTMLAsStream digest acks url (some h) meta tSend
            (markSent (makeStableId digest url h meta.salt meta.docType) tSave st) =
          (⟨true, some (makeStableId digest url h meta.salt meta.docType), some "recent",
              none⟩,
            markSent (makeStableId digest url h meta.salt meta.docType) tSave st, [])) ∧
      (¬ tSend - tSave < RECENT_WINDOW_MS →
        (sendHTMLAsStream digest acks url (some h) meta tSend
              (markSent (makeStableId digest url h meta.salt meta.docType) tSave st)).1 =
            ⟨true, some (makeStableId digest url h meta.salt meta.docType), none, none⟩ ∧
          (sendHTMLAsStream digest acks url (some h) meta tSend
              (markSent (makeStableId digest url h meta.salt meta.docType) tSave st)).2.2 =
            sendLargeMsgs (makeStableId digest url h meta.salt meta.docType) url h meta) ∧
      ∀ st' : BgState,
        ((sendHTMLAsStream digest acks url (some h) meta tSend st').2.1).recentlySent =
          st'.recentlySent := by
  have hnotin : makeStableId digest url h meta.salt meta.docType ∉
      (markSent (makeStableId digest url h meta.salt meta.docType) tSave st).inFlight := by
    simp [markSent, setErase, List.mem_filter]
  have hget : alGet (makeStableId digest url h meta.salt meta.docType)
      (markSent (makeStableId digest url h meta.salt meta.docType) tSave st).recentlySent =
      some tSave := by
    simp [markSent, alSet, alGet, List.find?_cons, RECENT_WINDOW_MS]
  refine ⟨hnotin, hget, ?_, ?_, ?_, ?_⟩
  · intro kv hkv
    simp only [markSent, List.mem_filter] at hkv
    have := hkv.2
    simp only [decide_eq_true_eq] at this
    omega
  · intro hwin
    simp [sendHTMLAsStream, hh, hnotin, hget]
    omega
  · intro hwin
    have hcond : ¬ (tSave ≠ 0 ∧ tSend - tSave < RECENT_WINDOW_MS) := by
      intro hc
      exact hwin hc.2
    constructor
    · simp [sendHTMLAsStream, hh, hnotin, hget, hcond]
    · simp [sendHTMLAsStream, hh, hnotin, hget, hcond, sendLargeAsChunksWithIdAwait]
  · intro st'
    exact sendHTMLAsStream_preserves_recentlySent digest acks url (some h) meta tSend st'

/-- C6 witness: the ledger lookup right after a saved ack at time 1 from the
empty state. -/
theorem markSent_dedup_window_witness :
    alGet (makeStableId (fun s => s) "u" [104] "" "")
        (markSent (makeStableId (fun s => s) "u" [104] "" "") 1
          ⟨[], [], []⟩).recentlySent = some 1 :=
  (markSent_dedup_window (fun s => s) [] "u" [104] ⟨"", "", false⟩ ⟨[], [], []⟩ 1 1
    (by decide) (by decide)).2.1

theorem utf8Encode_replicate (n c : Nat) (hcl : c < 0x80) :
    utf8Encode (List.replicate n c) = List.replicate n c := by
  induction n with
  | zero => rfl
  | succ n ih =>
    rw [List.replicate_succ]
    have hstep : utf8Encode (c :: List.replicate n c) =
        utf8EncodeChar c ++ utf8Encode (List.replicate n c) := by
      simp [utf8Encode]
    rw [hstep, ih]
    simp [utf8EncodeChar, hcl, List.replicate_succ]

theorem chunksOf_replicate_step (k n a : Nat) (hk : k ≠ 0) (hn : k ≤ n) (h0 : n ≠ 0) :
    chunksOf k (List.replicate n a) =
      List.replicate k a :: chunksOf k (List.replicate (n - k) a) := by
  rw [chunksOf]
  rw [dif_neg (by
    intro hor
    rcases hor with hc | hc
    · exact hk hc
    · have := congrArg List.length hc
      simp at this
      exact h0 this)]
  rw [List.take_replicate, List.drop_replicate, Nat.min_eq_left hn]

theorem chunksOf_replicate_last (k m a : Nat) (hk : k ≠ 0) (hm : m ≤ k) (h0 : m ≠ 0) :
    chunksOf k (List.replicate m a) = [List.replicate m a] := by
  rw [chunksOf]
  rw [dif_neg (by
    intro hor
    rcases hor with hc | hc
    · exact hk hc
    · have := congrArg List.length hc
      simp at this
      exact h0 this)]
  rw [List.take_replicate, List.drop_replicate, Nat.min_eq_right hm]
  have hz : m - k = 0 := by omega
  rw [hz]
  have hnil : chunksOf k (List.replicate 0 a) = [] := by
    rw [chunksOf]
    simp
  rw [hnil]

theorem chunksOf_replicate_150000 :
    chunksOf 60000 (List.replicate 150000 (97 : Nat)) =
      [List.replicate 60000 97, List.replicate 60000 97, List.replicate 30000 97] := by
  rw [chunksOf_replicate_step 60000 150000 97 (by norm_num) (by norm_num) (by norm_num)]
  have h1 : (150000 : Nat) - 60000 = 90000 := by norm_num
  rw [h1]
  rw [chunksOf_replicate_step 60000 90000 97 (by norm_num) (by norm_num) (by norm_num)]
  have h2 : (90000 : Nat) - 60000 = 30000 := by norm_num
  rw [h2]
  rw [chunksOf_replicate_last 60000 30000 97 (by norm_num) (by norm_num) (by norm_num)]

theorem sendLargeMsgs_filterMap_seq (id url : String) (h : List Nat) (meta : Meta) :
    (sendLargeMsgs id url h meta).filterMap seqOf =
      List.range (chunkUtf8Base64 h 60000).2.length := by
  simp only [sendLargeMsgs, List.filterMap_cons, seqOf, List.filterMap_append,
    List.filterMap_map]
  have hcomp : (seqOf ∘ fun p : Nat × List Nat =>
      Msg.chunk id p.1 (chunkUtf8Base64 h 60000).2.length "base64" url p.2) =
      some ∘ Prod.fst := by
    funext p
    simp [seqOf]
  rw [hcomp, List.filterMap_eq_map, List.enum_map_fst]
  simp [seqOf]

/-- C8: for every transmitted payload the sender emits exactly one begin
message carrying the id, the chunk count and the byte count, then every chunk
message tagged with id, seq and total with seq running 0 .. total-1 in strictly
increasing order, then exactly one end message; and for the concrete scenario
of a 150000-byte UTF-8 payload with 60000-byte chunks, exactly 3 chunks with
seq 0, 1, 2, total 3 and totalBytes 150000 in the begin message. -/
theorem sendLargeMsgs_shape (id url : String) (h : List Nat) (meta : Meta) :
    (sendLargeMsgs id url h meta).head? =
        some (Msg.begin id (chunkUtf8Base64 h 60000).2.length (utf8Encode h).length url
          meta) ∧
      (sendLargeMsgs id url h meta).getLast? = some (Msg.endMsg id url meta) ∧
      (sendLargeMsgs id url h meta).countP isBeginMsg = 1 ∧
      (sendLargeMsgs id url h meta).countP isEndMsg = 1 ∧
      (sendLargeMsgs id url h meta).filterMap seqOf =
        List.range (chunkUtf8Base64 h 60000).2.length ∧
      (chunkUtf8Base64 (List.replicate 150000 97) 60000).1 = 150000 ∧
      (chunkUtf8Base64 (List.replicate 150000 97) 60000).2.length = 3 ∧
      (sendLargeMsgs id url (List.replicate 150000 97) meta).filterMap seqOf = [0, 1, 2] := by
  have hbuf : utf8Encode (List.replicate 150000 97) = List.replicate 150000 97 :=
    utf8Encode_replicate 150000 97 (by norm_num)
  have hlen3 : (chunkUtf8Base64 (List.replicate 150000 97) 60000).2.length = 3 := by
    show ((chunksOf 60000 (utf8Encode (List.replicate 150000 97))).map
      b64EncodeBytes).length = 3
    rw [hbuf, chunksOf_replicate_150000]
    rfl
  refine ⟨rfl, ?_, ?_, ?_, sendLargeMsgs_filterMap_seq id url h meta, ?_, hlen3, ?_⟩
  · rw [sendLargeMsgs, List.getLast?_concat]
  · simp [sendLargeMsgs, List.countP_cons, List.countP_append, List.countP_map, isBeginMsg,
      Function.comp_def]
  · simp [sendLargeMsgs, List.countP_cons, List.countP_append, List.countP_map, isEndMsg,
      Function.comp_def]
  · show (utf8Encode (List.replicate 150000 97)).length = 150000
    rw [hbuf, List.length_replicate]
  · rw [sendLargeMsgs_filterMap_seq id url (List.replicate 150000 97) meta, hlen3]
    rfl

/-- C9: after the begin message the sender waits a bounded time for a matching
begin_ack — the wait resolves at the matching ack when one arrives before the
5000 ms timeout and at the timeout otherwise — and in either case the whole
chunk sequence and the end message are still emitted (the message trace does
not depend on the ack outcome). -/
theorem sendLarge_beginAck_bounded (acks : List (String × Nat)) (id url : String)
    (h : List Nat) (meta : Meta) :
    (sendLargeAsChunksWithIdAwait acks id url (some h) meta).2 ≤ 5000 ∧
      ((acks.filter (fun a => a.1 == id)).head? = none →
        (sendLargeAsChunksWithIdAwait acks id url (some h) meta).2 = 5000) ∧
      (∀ a, (acks.filter (fun a => a.1 == id)).head? = some a → a.2 < 5000 →
        (sendLargeAsChunksWithIdAwait acks id url (some h) meta).2 = a.2 ∧
          (waitForBeginAck acks id 5000).2 = true) ∧
      (sendLargeAsChunksWithIdAwait acks id url (some h) meta).1 =
        sendLargeMsgs id url h meta := by
  refine ⟨?_, ?_, ?_, rfl⟩
  · show (waitForBeginAck acks id 5000).1 ≤ 5000
    unfold waitForBeginAck
    cases (acks.filter (fun a => a.1 == id)).head? with
    | none => simp
    | some a =>
      dsimp
      split <;> omega
  · intro hnone
    show (waitForBeginAck acks id 5000).1 = 5000
    unfold waitForBeginAck
    rw [hnone]
  · intro a ha hlt
    constructor
    · show (waitForBeginAck acks id 5000).1 = a.2
      unfold waitForBeginAck
      rw [ha]
      simp [hlt]
    · unfold waitForBeginAck
      rw [ha]
      simp [hlt]

/-- C9 witness: with no ack present the wait still resolves within the 5000 ms
bound. -/
theorem sendLarge_beginAck_bounded_witness :
    (sendLargeAsChunksWithIdAwait [] "i" "u" (some [104]) ⟨"", "", false⟩).2 ≤ 5000 :=
  (sendLarge_beginAck_bounded [] "i" "u" [104] ⟨"", "", false⟩).1

/-- C3 counterexample: a second missing_chunks report (for the id of the
first automatic resend) triggers yet another automatic resend — messages are
emitted again instead of the failure being surfaced to the caller.  Evaluated
concretely: a send from the empty state is followed by two consecutive
missing_chunks reports, and the handler transmits on the second report too. -/
theorem missingChunks_retries_again :
    (handleMissingChunks (fun s => s) [] "u||5" 9
        (handleMissingChunks (fun s => s) [] "u||" 5
          (sendHTMLAsStream (fun s => s) [] "u" (some [104]) ⟨"", "", false⟩ 0
            ⟨[], [], []⟩).2.1).1).2.1 ≠ [] := by decide

/-- C3 amended: when the receiver reports missing_chunks for an id X whose
payload is still cached, the handler performs one automatic resend under a
different id derived from the same content plus a fresh salt (the current
time as a string), never under X itself; but a failing resend is not surfaced
to the caller — each further missing_chunks report for the latest id triggers
yet another resend, without bound (see the counterexample). -/
theorem missingChunks_single_resend (digest : String → String)
    (acks : List (String × Nat)) (idX : String) (now : Nat) (st : BgState)
    (url : String) (h : List Nat) (meta : Meta)
    (hcache : alGet idX st.lastPayloadById = some (url, h, meta))
    (hh : h ≠ [])
    (hinj : Function.Injective digest)
    (hidX : idX = makeStableId digest url h meta.salt meta.docType)
    (hsalt : toString now ≠ meta.salt)
    (hfree : makeStableId digest url h (toString now) meta.docType ∉
      setErase idX st.inFlight)
    (hrec : alGet (makeStableId digest url h (toString now) meta.docType)
      (alErase idX st.recentlySent) = none) :
    (handleMissingChunks digest acks idX now st).2.1 =
        sendLargeMsgs (makeStableId digest url h (toString now) meta.docType) url h
          ⟨meta.docType, toString now, true⟩ ∧
      (handleMissingChunks digest acks idX now st).2.2 =
        some ⟨true, some (makeStableId digest url h (toString now) meta.docType), none,
          none⟩ ∧
      makeStableId digest url h (toString now) meta.docType ≠ idX := by
  refine ⟨?_, ?_, ?_⟩
  · simp [handleMissingChunks, hcache, sendHTMLAsStream, hh, hfree, hrec,
      sendLargeAsChunksWithIdAwait]
  · simp [handleMissingChunks, hcache, sendHTMLAsStream, hh, hfree, hrec,
      sendLargeAsChunksWithIdAwait]
  · intro he
    rw [hidX] at he
    exact append_ne_of_ne_right (url ++ "|" ++ meta.docType ++ "|") (toString now) meta.salt
      hsalt (hinj he)

/-- C3 amended witness: at the identity digest, the resend id for a cached
payload differs from the original id. -/
theorem missingChunks_single_resend_witness :
    makeStableId (fun s => s) "u" [104] (toString 5) "" ≠ "u||" :=
  (missingChunks_single_resend (fun s => s) [] "u||" 5
    ⟨["u||"], [], [("u||", ("u", [104], ⟨"", "", false⟩))]⟩ "u" [104] ⟨"", "", false⟩
    (by decide) (by decide) (fun a b hab => hab) (by decide) (by decide) (by decide)
    (by decide)).2.2

/-- A snapshot of the Facebook post dialog as the step engine sees it on one
polling tick of handleButtonsRecursive (src/facebook/content.js): for each of
the three button candidates, none means the selector found nothing, and
some d means the element is present with aria-disabled equal to d. -/
structure FbDoc where
  posten : Option Bool
  weiter : Option Bool
  jetztNicht : Option Bool
deriving DecidableEq, Repr

/-- The three candidate actions of handleButtonsRecursive. -/
inductive StepAction where
  | posten
  | weiter
  | jetztNicht
deriving DecidableEq, Repr

/-- The candidate selection of handleButtonsRecursive: Posten first, then
Weiter, then the Jetzt-nicht span; at most one candidate is chosen. -/
def selectTarget (d : FbDoc) : Option (StepAction × Bool) :=
  match d.posten with
  | some dis => some (.posten, dis)
  | none =>
    match d.weiter with
    | some dis => some (.weiter, dis)
    | none =>
      match d.jetztNicht with
      | some dis => some (.jetztNicht, dis)
      | none => none

/-- Classification of one polling tick: poll means sleep a jittered interval
and re-evaluate from the top; clicked carries the executed action and whether
the run terminates afterwards. -/
inductive TickResult where
  | poll
  | clicked (a : StepAction) (terminal : Bool)
deriving DecidableEq, Repr

/-- One polling tick of handleButtonsRecursive: no candidate, or a disabled
candidate other than Jetzt nicht, polls again; otherwise the candidate is
clicked, and only Posten ends the run (Weiter and Jetzt nicht recurse). -/
def tick (d : FbDoc) : TickResult :=
  match selectTarget d with
  | none => .poll
  | some (a, dis) =>
    if dis ∧ a ≠ StepAction.jetztNicht then .poll
    else .clicked a (decide (a = StepAction.posten))

/-- The recursion of handleButtonsRecursive over a document trace docs (the
snapshot seen at each tick), with explicit fuel: none means the run is still
polling after that many ticks; some i means the run completed via Posten at
tick i.  The source recursion has no tick bound and no wall-clock bound and
no timeout outcome of any kind, so exhausted fuel corresponds to the source
still polling. -/
def runAux (docs : Nat → FbDoc) : Nat → Nat → Option Nat
  | _, 0 => none
  | i, n + 1 =>
    match tick (docs i) with
    | .poll => runAux docs (i + 1) n
    | .clicked _ true => some i
    | .clicked _ false => runAux docs (i + 1) n

/-- The jittered sleep of randomSleep in src/facebook/content.js, with the
random draw made explicit: the delay is min + r mod (max - min + 1). -/
def randomSleepDelay (mn mx r : Nat) : Nat :=
  mn + r % (mx - mn + 1)

/-- A document trace in which no candidate ever appears. -/
def docsNone : Nat → FbDoc := fun _ => ⟨none, none, none⟩

/-- A document trace in which the Posten button is present but stays
aria-disabled forever. -/
def docsDisabled : Nat → FbDoc := fun _ => ⟨some true, none, none⟩

theorem runAux_poll_forever (docs : Nat → FbDoc) (hdocs : ∀ i, tick (docs i) = .poll) :
    ∀ n i, runAux docs i n = none := by
  intro n
  induction n with
  | zero => intro i; rfl
  | succ n ih =>
    intro i
    simp [runAux, hdocs i, ih]

theorem tick_docsNone : ∀ i, tick (docsNone i) = .poll := by
  intro i
  rfl

theorem tick_docsDisabled : ∀ i, tick (docsDisabled i) = .poll := by
  intro i
  simp [tick, docsDisabled, selectTarget]

/-- C4 counterexample: after a million ticks with no step predicate ever
satisfied (no button present, or the matched button disabled forever) the
engine is still polling and has produced no Timeout result — indeed the
embedded run outcome type has no timeout at all, because the source recursion
carries no wall-clock budget and no tick cap. -/
theorem stepEngine_no_timeout_cex :
    runAux docsNone 0 1000000 = none ∧ runAux docsDisabled 0 1000000 = none :=
  ⟨runAux_poll_forever docsNone tick_docsNone 1000000 0,
    runAux_poll_forever docsDisabled tick_docsDisabled 1000000 0⟩

/-- C4 amended: the step engine enforces no wall-clock budget and no tick
bound: a run in which no step predicate is ever satisfied (no Posten, Weiter
or Jetzt-nicht element appears, or the matched button stays disabled forever)
polls forever — for every fuel it is still polling, and no Timeout result
exists (waitForElement likewise observes mutations indefinitely without a
timeout). -/
theorem stepEngine_no_timeout (n i : Nat) :
    runAux docsNone i n = none ∧ runAux docsDisabled i n = none ∧
      tick ⟨none, none, none⟩ = .poll ∧ tick ⟨some true, none, none⟩ = .poll := by
  refine ⟨runAux_poll_forever docsNone tick_docsNone n i,
    runAux_poll_forever docsDisabled tick_docsDisabled n i, rfl, ?_⟩
  simp [tick, selectTarget]

/-- C7: on every polling tick the selector evaluates the candidates in the
fixed priority order Posten, Weiter, Jetzt nicht against the current snapshot
and executes at most one action; a present but aria-disabled candidate other
than Jetzt nicht, like an empty candidate set, classifies the tick as
continue-polling, after which the engine sleeps a jittered interval in the
configured range and re-evaluates from the top of the priority list; a clicked
candidate terminates the run exactly when it is Posten. -/
theorem stepEngine_priority (d : FbDoc) :
    (∀ dis, d.posten = some dis → selectTarget d = some (.posten, dis)) ∧
      (∀ dis, d.posten = none → d.weiter = some dis →
        selectTarget d = some (.weiter, dis)) ∧
      (∀ dis, d.posten = none → d.weiter = none → d.jetztNicht = some dis →
        selectTarget d = some (.jetztNicht, dis)) ∧
      (selectTarget d = none → tick d = .poll) ∧
      (∀ a, selectTarget d = some (a, true) → a ≠ StepAction.jetztNicht →
        tick d = .poll) ∧
      (∀ dis, selectTarget d = some (.jetztNicht, dis) →
        tick d = .clicked .jetztNicht false) ∧
      (∀ a t, tick d = .clicked a t → (t = true ↔ a = StepAction.posten)) ∧
      (∀ docs n i, tick (docs i) = TickResult.poll →
        runAux docs i (n + 1) = runAux docs (i + 1) n) ∧
      (∀ docs n i a, tick (docs i) = TickResult.clicked a false →
        runAux docs i (n + 1) = runAux docs (i + 1) n) ∧
      (∀ docs n i a, tick (docs i) = TickResult.clicked a true →
        runAux docs i (n + 1) = some i) ∧
      (∀ r, 1000 ≤ randomSleepDelay 1000 2000 r ∧ randomSleepDelay 1000 2000 r ≤ 2000) := by
  refine ⟨?_, ?_, ?_, ?_, ?_, ?_, ?_, ?_, ?_, ?_, ?_⟩
  · intro dis hp
    simp [selectTarget, hp]
  · intro dis hp hw
    simp [selectTarget, hp, hw]
  · intro dis hp hw hj
    simp [selectTarget, hp, hw, hj]
  · intro hsel
    simp [tick, hsel]
  · intro a hsel hne
    simp [tick, hsel, hne]
  · intro dis hsel
    simp [tick, hsel]
  · intro a t htick
    unfold tick at htick
    cases hsel : selectTarget d with
    | none =>
      rw [hsel] at htick
      exact absurd htick (by simp)
    | some pr =>
      obtain ⟨a', dis⟩ := pr
      rw [hsel] at htick
      dsimp only at htick
      by_cases hcond : (dis : Prop) ∧ a' ≠ StepAction.jetztNicht
      · rw [if_pos hcond] at htick
        exact absurd htick (by simp)
      · rw [if_neg hcond] at htick
        have ha : a' = a ∧ decide (a' = StepAction.posten) = t := by
          injection htick with h1 h2
          exact ⟨h1, h2⟩
        rcases ha with ⟨rfl, rfl⟩
        simp [decide_eq_true_eq]
  · intro docs n i hpoll
    simp [runAux, hpoll]
  · intro docs n i a hclick
    simp [runAux, hclick]
  · intro docs n i a hclick
    simp [runAux, hclick]
  · intro r
    have : r % (2000 - 1000 + 1) < 2000 - 1000 + 1 := Nat.mod_lt r (by norm_num)
    unfold randomSleepDelay
    omega

/-- C7 witness: with the Posten button present and enabled (and the other
candidates also present), the selector picks Posten. -/
theorem stepEngine_priority_witness :
    selectTarget ⟨some false, some false, some false⟩ = some (.posten, false) :=
  (stepEngine_priority ⟨some false, some false, some false⟩).1 false rfl

end Scraper
